import Mathlib

/-!
Shallow embedding of the flux-mongodb-cluster sidecar controller
(the Node.js controller in the repository; functions `fetchAllIPs`,
`checkPeerPrimaryConsensus`, `findNodeWithLatestData`, `nuclearResync`,
`reconcileReplicaSet` and the stale-primary check in `bootstrap`).

Strings are modelled with Lean `String` (a wrapper around `List Char`,
matching JavaScript's sequence-of-code-units view for the ASCII data the
controller handles).  Oplog timestamps `(time, counter)` are pairs of `Nat`.
Network and engine effects are modelled by passing the observed responses in
explicitly and recording the externally visible operations as an event trace.
-/

/-! ### Registry client: `fetchAllIPs` -/

/-- One element of the registry's `data` array: `{ip: "A.B.C.D[:port]"}`. -/
structure RegistryNode where
  ip : String
deriving DecidableEq, Repr

/-- A parsed registry response body `{status, data}`.  A fetch or JSON-parse
failure is modelled as `none` at the call site. -/
structure RegistryResponse where
  status : String
  data : List RegistryNode
deriving DecidableEq, Repr

/-- JavaScript `s.split(':')[0]`: the segment before the first `':'`. -/
def stripPort (s : String) : String :=
  ⟨s.data.takeWhile (fun c => c ≠ ':')⟩

/-- Lexicographic comparison of character sequences by code unit, the
comparison JavaScript's default `Array.prototype.sort` applies to strings. -/
def charListLe : List Char → List Char → Bool
  | [], _ => true
  | _ :: _, [] => false
  | a :: as, b :: bs =>
    if a.toNat = b.toNat then charListLe as bs else decide (a.toNat < b.toNat)

/-- String comparison used by the registry client's sort. -/
def strLe (a b : String) : Bool := charListLe a.data b.data

/-- `fetchAllIPs` from the controller: on a response with
`status === 'success'` and non-empty `data`, map each node to
`node.ip.split(':')[0]`, keep truthy (non-empty) strings, and sort with
JavaScript's default string comparison.  On any failure or empty data,
return `[]`. -/
def fetchAllIPs : Option RegistryResponse → List String
  | none => []
  | some r =>
    if r.status = "success" ∧ r.data ≠ [] then
      List.insertionSort (fun a b => strLe a b = true)
        ((r.data.map (fun n => stripPort n.ip)).filter (fun s => s ≠ ""))
    else []

/-! ### Hostname derivation (`bootstrap`, `updateHostsFile`, peer hostnames) -/

/-- The character map of the regex replace `/\./g → '-'`. -/
def dotToDash (c : Char) : Char := if c = '.' then '-' else c

/-- Inverse character map, `'-' → '.'`. -/
def dashToDot (c : Char) : Char := if c = '-' then '.' else c

/-- `mongo-${ip.replace(/\./g, '-')}.mongo-cluster` from the controller. -/
def deriveHostname (ip : String) : String :=
  "mongo-" ++ ⟨ip.data.map dotToDash⟩ ++ ".mongo-cluster"

/-- Leading decimal digits of a character list, with the rest. -/
def takeDigits : List Char → List Char × List Char
  | [] => ([], [])
  | c :: cs =>
    if c.isDigit then
      let r := takeDigits cs
      (c :: r.1, r.2)
    else ([], c :: cs)

/-- Decimal value of a digit sequence. -/
def digitsVal (d : List Char) : Nat :=
  d.foldl (fun a c => a * 10 + (c.toNat - 48)) 0

/-- A syntactically valid dotted-quad octet: one to three decimal digits
with value at most 255. -/
def okOctet (d : List Char) : Bool :=
  d ≠ [] && d.length ≤ 3 && digitsVal d ≤ 255

/-- Recognises `k + 1` dot-separated octets. -/
def isIPv4From : Nat → List Char → Bool
  | 0, l => okOctet (takeDigits l).1 && (takeDigits l).2.isEmpty
  | Nat.succ k, l =>
    okOctet (takeDigits l).1 &&
      (match (takeDigits l).2 with
       | c :: rest => c = '.' && isIPv4From k rest
       | [] => false)

/-- A syntactically valid IPv4 dotted-quad string `A.B.C.D`. -/
def isIPv4 (s : String) : Bool := isIPv4From 3 s.data

/-- Strip an exact prefix from a character list. -/
def stripPre (p l : List Char) : Option (List Char) :=
  if l.take p.length = p then some (l.drop p.length) else none

/-- Strip an exact suffix from a character list. -/
def stripSuf (s l : List Char) : Option (List Char) :=
  (stripPre s.reverse l.reverse).map List.reverse

/-- Modelled from the spec: the inverse direction of hostname derivation,
"parse-hostname", which the source never implements (only derivation appears
in `bootstrap`).  Per the spec's derivation rule it strips the `mongo-`
prefix and the `.mongo-cluster` suffix and turns dashes back into dots. -/
def parseHostname (h : String) : Option String :=
  (stripPre "mongo-".data h.data).bind fun m =>
    (stripSuf ".mongo-cluster".data m).map fun core => ⟨core.map dashToDot⟩

/-! ### Oplog timestamps and `findNodeWithLatestData` -/

/-- An oplog timestamp as the controller reads it: `time` is
`timestamp.getHighBits()` (seconds since epoch), `counter` is
`timestamp.getLowBits()`. -/
structure OplogTs where
  time : Nat
  counter : Nat
deriving DecidableEq, Repr

/-- One entry of the `oplogData` map in `findNodeWithLatestData`:
an ip that produced a timestamp, with the hostname it reported. -/
structure OplogEntry where
  ip : String
  hostname : String
  ts : OplogTs
deriving DecidableEq, Repr

/-- The loop state of `findNodeWithLatestData`'s maximum scan:
`latestIP` (null at the start), `latestHostname`, `latestTime = 0`,
`latestCounter = 0`. -/
structure LatestScanState where
  latestIP : Option String
  latestHostname : String
  latestTime : Nat
  latestCounter : Nat
deriving DecidableEq, Repr

/-- The result object of `findNodeWithLatestData`. -/
structure LatestNode where
  ip : String
  hostname : String
  time : Nat
  counter : Nat
  isMe : Bool
deriving DecidableEq, Repr

/-- The comparison in the scan:
`data.time > latestTime || (data.time === latestTime && data.counter > latestCounter)`. -/
def tsBeats (t : OplogTs) (latestTime latestCounter : Nat) : Bool :=
  latestTime < t.time || (t.time == latestTime && latestCounter < t.counter)

/-- One step of the scan over `oplogData.entries()`. -/
def latestScanStep (st : LatestScanState) (e : OplogEntry) : LatestScanState :=
  if tsBeats e.ts st.latestTime st.latestCounter then
    ⟨some e.ip, e.hostname, e.ts.time, e.ts.counter⟩
  else st

/-- The whole scan, starting from `(null, null, 0, 0)`. -/
def scanLatest (entries : List OplogEntry) : LatestScanState :=
  entries.foldl latestScanStep ⟨none, "", 0, 0⟩

/-- The insertion-ordered contents of the `oplogData` map: this node's own
timestamp first when `getLatestOplogTimestamp` produced one, then every
peer that answered `/oplog` with a non-null timestamp, in query order. -/
def oplogEntries (myIP myHostname : String) (myOplog : Option OplogTs)
    (peerEntries : List OplogEntry) : List OplogEntry :=
  (match myOplog with
   | some t => [⟨myIP, myHostname, t⟩]
   | none => []) ++ peerEntries

/-- `findNodeWithLatestData` from the controller: scan the collected
timestamps for the lexicographic maximum; return `null` when no entry ever
displaced the `(null, 0, 0)` start state. -/
def findNodeWithLatestData (myIP myHostname : String) (myOplog : Option OplogTs)
    (peerEntries : List OplogEntry) : Option LatestNode :=
  let st := scanLatest (oplogEntries myIP myHostname myOplog peerEntries)
  match st.latestIP with
  | some ip =>
    some ⟨ip, st.latestHostname, st.latestTime, st.latestCounter, decide (ip = myIP)⟩
  | none => none

/-- The decision made by `nuclearResync`: it aborts (no wipe) exactly when
`findNodeWithLatestData` returned a node and that node `isMe`; in every
other case — including a `null` result, when no timestamp was obtained from
any node — it proceeds to stop the engine, wipe `/data/db` and exit. -/
def nuclearResyncWipes (myIP myHostname : String) (myOplog : Option OplogTs)
    (peerEntries : List OplogEntry) : Bool :=
  match findNodeWithLatestData myIP myHostname myOplog peerEntries with
  | some l => !l.isMe
  | none => true

/-- Lexicographic `≤` on oplog timestamps (specification-side ordering). -/
def tsLe (a b : OplogTs) : Prop :=
  a.time < b.time ∨ (a.time = b.time ∧ a.counter ≤ b.counter)

instance (a b : OplogTs) : Decidable (tsLe a b) := by
  unfold tsLe; infer_instance

/-- The stale-primary self-check in `bootstrap` (the `iAmPrimary` branch):
with at least one known peer, find the node with the latest data; if it is
not this node and this node's own timestamp is available, request
`replSetStepDown: 300` exactly when `latest.time - myOplog.time > 0`.
Returns the requested step-down seconds, or `none`. -/
def stalePrimaryStepDown (iAmPrimary : Bool) (myIP myHostname : String)
    (myOplog : Option OplogTs) (peerIPs : List String)
    (peerEntries : List OplogEntry) : Option Nat :=
  if iAmPrimary && decide (0 < peerIPs.length) then
    match findNodeWithLatestData myIP myHostname myOplog peerEntries with
    | some latest =>
      if !latest.isMe then
        match myOplog with
        | some my =>
          if (0 : Int) < (latest.time : Int) - (my.time : Int) then some 300
          else none
        | none => none
      else none
    | none => none
  else none

/-! ### Replica-set configuration and the reconciliation cycle -/

/-- A replica-set member `{_id, host}` as the reconciler manipulates it. -/
structure RSMember where
  id : Nat
  host : String
deriving DecidableEq, Repr

/-- A replica-set configuration: the `members` array and the `version`. -/
structure RSConfig where
  members : List RSMember
  version : Nat
deriving DecidableEq, Repr

/-- Externally visible operations of one reconciliation cycle, in order. -/
inductive Event where
  | checkPrimary (result : Bool)
  | fetchRegistry
  | queryPeerPrimary (peer : String)
  | stepDown (secs : Nat)
  | reconnect
  | fetchStatus
  | wipeData
  | fetchConfig
  | submitReconfig (cfg : RSConfig)
deriving DecidableEq, Repr

/-- The responses one reconciliation cycle observes from its environment.
`replies` holds, for each peer in `peerIPs` in order, the primary hostname
that peer claimed on `/primary` (`none` covers both an unreachable peer and
a `null` primary — neither contributes a vote).  `config1` is the result of
the first `replSetGetConfig`, `config2` the result after the reconnect that
a first failure triggers. -/
structure ReconcileEnv where
  myIP : String
  myHostname : String
  port : String
  peerIPs : List String
  isPrimaryRes : Bool
  registry : List String
  replies : List (Option String)
  rejoinOk : Bool
  myOplog : Option OplogTs
  peerOplogs : List OplogEntry
  reconfigMismatch : Bool
  config1 : Option RSConfig
  config2 : Option RSConfig
deriving Repr

/-- JavaScript `m.host.split(':')[0]` used to compare members by hostname. -/
def hostPrefix (h : String) : String := stripPort h

/-- First-occurrence order of the keys of the `primaryVotes` map (a JS `Map`
iterates its keys in insertion order, one entry per distinct vote). -/
def dedupFirst : List String → List String
  | [] => []
  | v :: vs => v :: (dedupFirst vs).filter (fun w => w ≠ v)

/-- The consensus scan of `reconcileReplicaSet`: walk the vote tally in map
order and return the first primary hostname whose count reaches the
threshold. -/
def consensusPrimary (votes : List String) (threshold : Nat) : Option String :=
  (dedupFirst votes).find? (fun p => threshold ≤ votes.count p)

/-- `Math.max(...config.members.map(m => m._id))` (members non-empty). -/
def maxId (ms : List RSMember) : Nat :=
  ms.foldl (fun a m => max a m.id) 0

/-- The `toAdd` loop: for each hostname, append a member whose `_id` is the
current maximum over the (already grown) array plus one. -/
def addMembers (ms : List RSMember) (hosts : List String) (port : String) :
    List RSMember :=
  hosts.foldl (fun acc h => acc ++ [⟨maxId acc + 1, h ++ ":" ++ port⟩]) ms

/-- The `toRemove` loop: for each hostname, splice out the first member
whose `host` starts with it, when one exists. -/
def removeMembers (ms : List RSMember) (hosts : List String) : List RSMember :=
  hosts.foldl
    (fun acc h =>
      match acc.findIdx? (fun m => h.data.isPrefixOf m.host.data) with
      | some i => acc.eraseIdx i
      | none => acc)
    ms

/-- The membership-sync tail of `reconcileReplicaSet` once a config is in
hand: compute `toAdd`/`toRemove` from hostnames, and when either is
non-empty build the new config (additions first, then removals, `version`
incremented) and submit it.  Produces the trace tail and the submitted
config, if any. -/
def buildAndSubmit (env : ReconcileEnv) (cfg : RSConfig) :
    List Event × Option RSConfig :=
  let current := cfg.members.map (fun m => hostPrefix m.host)
  let desired := env.myHostname :: env.peerIPs.map deriveHostname
  let toAdd := desired.filter (fun h => !(current.contains h))
  let toRemove :=
    current.filter (fun h => (h ≠ env.myHostname : Bool) && !(desired.contains h))
  if toAdd.isEmpty && toRemove.isEmpty then ([], none)
  else
    let ms := removeMembers (addMembers cfg.members toAdd env.port) toRemove
    let cfg' : RSConfig := ⟨ms, cfg.version + 1⟩
    ([Event.submitReconfig cfg'] ++
       (if env.reconfigMismatch then
          (if nuclearResyncWipes env.myIP env.myHostname env.myOplog env.peerOplogs
           then [Event.wipeData] else [])
        else []),
     some cfg')

/-- Fetching the config, with the one reconnect-and-retry the code performs
when the first `replSetGetConfig` fails. -/
def membershipPhase (env : ReconcileEnv) : List Event × Option RSConfig :=
  match env.config1 with
  | some cfg =>
    let r := buildAndSubmit env cfg
    (Event.fetchConfig :: r.1, r.2)
  | none =>
    match env.config2 with
    | some cfg =>
      let r := buildAndSubmit env cfg
      ([Event.fetchConfig, Event.reconnect, Event.fetchConfig] ++ r.1, r.2)
    | none => ([Event.fetchConfig, Event.reconnect, Event.fetchConfig], none)

/-- The split-brain recovery path: `stepDownAndRejoin` (step down 60 s,
reconnect, poll status) and, when rejoining failed, `nuclearResync` with its
wipe-or-abort decision. -/
def splitBrainPath (env : ReconcileEnv) : List Event :=
  [Event.stepDown 60, Event.reconnect, Event.fetchStatus] ++
    (if env.rejoinOk then []
     else if nuclearResyncWipes env.myIP env.myHostname env.myOplog env.peerOplogs
     then [Event.wipeData] else [])

/-- Everything `reconcileReplicaSet` does after its single `isPrimary()`
check succeeded: fetch the registry, run the consensus check when more than
one node is known (threshold `⌊N/2⌋ + 1`), branch to split-brain recovery
when the consensus primary differs from `myHostname:port`, and otherwise
run the membership sync. -/
def postPrimary (env : ReconcileEnv) : List Event × Option RSConfig :=
  if 1 < env.registry.length then
    let ce := env.peerIPs.map Event.queryPeerPrimary
    match consensusPrimary (env.replies.filterMap id)
        (env.registry.length / 2 + 1) with
    | some p =>
      if p ≠ env.myHostname ++ ":" ++ env.port then
        (Event.fetchRegistry :: (ce ++ splitBrainPath env), none)
      else
        let r := membershipPhase env
        (Event.fetchRegistry :: (ce ++ r.1), r.2)
    | none =>
      let r := membershipPhase env
      (Event.fetchRegistry :: (ce ++ r.1), r.2)
  else
    let r := membershipPhase env
    (Event.fetchRegistry :: r.1, r.2)

/-- One cycle of `reconcileReplicaSet`: check `isPrimary()` once; when it
reports false, stop; otherwise continue with `postPrimary`.  The first
component is the trace of externally visible operations, the second the
submitted configuration, if the cycle submitted one. -/
def runReconcile (env : ReconcileEnv) : List Event × Option RSConfig :=
  if env.isPrimaryRes then
    let r := postPrimary env
    (Event.checkPrimary true :: r.1, r.2)
  else ([Event.checkPrimary false], none)

/-- The configuration the cycle works from: the first fetch when it
succeeded, otherwise the post-reconnect fetch. -/
def effectiveConfig (env : ReconcileEnv) : Option RSConfig :=
  match env.config1 with
  | some c => some c
  | none => env.config2

/-- Recognise a `submitReconfig` event. -/
def isSubmit : Event → Bool
  | Event.submitReconfig _ => true
  | _ => false

/-- Recognise an `isPrimary()` probe event. -/
def isPrimaryCheck : Event → Bool
  | Event.checkPrimary _ => true
  | _ => false

/-- Pair scan: every `submitReconfig` is directly preceded by a successful
primary check. -/
def immediateRecheckAux : Event → List Event → Bool
  | _, [] => true
  | prev, e :: rest =>
    (!(isSubmit e) || decide (prev = Event.checkPrimary true)) &&
      immediateRecheckAux e rest

/-- The re-verification discipline the claim describes: a cycle's trace
satisfies it when every `submitReconfig` event is immediately preceded by an
`isPrimary()` check that returned true (and no submit opens the trace). -/
def immediateRecheckOk : List Event → Bool
  | [] => true
  | e :: rest => !(isSubmit e) && immediateRecheckAux e rest

/-! ### Concrete cycle environments used by counterexamples and witnesses -/

/-- A primary node, two-node registry, one silent peer, a one-member config
that needs a member added: the cycle submits a reconfigure. -/
def envC2 : ReconcileEnv :=
  { myIP := "10.0.0.1", myHostname := deriveHostname "10.0.0.1", port := "27017",
    peerIPs := ["10.0.0.2"], isPrimaryRes := true,
    registry := ["10.0.0.1", "10.0.0.2"], replies := [none], rejoinOk := false,
    myOplog := none, peerOplogs := [], reconfigMismatch := false,
    config1 := some ⟨[⟨0, "mongo-10-0-0-1.mongo-cluster:27017"⟩], 1⟩,
    config2 := none }

/-- A registry outage while primary: both fetches fail (`fetchAllIPs none`),
so the known-node list and the peer list are empty, while the current config
still holds one peer member. -/
def envC3 : ReconcileEnv :=
  { myIP := "10.0.0.1", myHostname := deriveHostname "10.0.0.1", port := "27017",
    peerIPs := (fetchAllIPs none).filter (fun ip => ip ≠ "10.0.0.1"),
    isPrimaryRes := true, registry := fetchAllIPs none,
    replies := [], rejoinOk := false, myOplog := none, peerOplogs := [],
    reconfigMismatch := false,
    config1 := some ⟨[⟨0, "mongo-10-0-0-1.mongo-cluster:27017"⟩,
                      ⟨1, "mongo-10-0-0-2.mongo-cluster:27017"⟩], 7⟩,
    config2 := none }

/-- A three-node cluster in which both peers vote for the second node as
primary while this node believes itself primary. -/
def envC5 : ReconcileEnv :=
  { myIP := "10.0.0.1", myHostname := deriveHostname "10.0.0.1", port := "27017",
    peerIPs := ["10.0.0.2", "10.0.0.3"], isPrimaryRes := true,
    registry := ["10.0.0.1", "10.0.0.2", "10.0.0.3"],
    replies := [some "mongo-10-0-0-2.mongo-cluster:27017",
                some "mongo-10-0-0-2.mongo-cluster:27017"],
    rejoinOk := true, myOplog := none, peerOplogs := [],
    reconfigMismatch := false, config1 := none, config2 := none }

/-- The current configuration used by the C6 witness cycle. -/
def cfgC6 : RSConfig :=
  ⟨[⟨0, "mongo-10-0-0-1.mongo-cluster:27017"⟩], 5⟩

/-- A single-known-node registry view with one new peer to add: the cycle
appends a member and submits. -/
def envC6 : ReconcileEnv :=
  { myIP := "10.0.0.1", myHostname := deriveHostname "10.0.0.1", port := "27017",
    peerIPs := ["10.0.0.2"], isPrimaryRes := true, registry := ["10.0.0.1"],
    replies := [], rejoinOk := false, myOplog := none, peerOplogs := [],
    reconfigMismatch := false, config1 := some cfgC6, config2 := none }

/-- A two-node cluster whose single peer votes for a different primary:
the threshold of two can never be met by one vote. -/
def envC10 : ReconcileEnv :=
  { myIP := "10.0.0.1", myHostname := deriveHostname "10.0.0.1", port := "27017",
    peerIPs := ["10.0.0.2"], isPrimaryRes := true,
    registry := ["10.0.0.1", "10.0.0.2"],
    replies := [some "mongo-10-0-0-2.mongo-cluster:27017"],
    rejoinOk := true, myOplog := none, peerOplogs := [],
    reconfigMismatch := false, config1 := none, config2 := none }

/-! ## Theorems -/

/-! ### String-comparison order facts -/

theorem charListLe_total : ∀ a b : List Char, charListLe a b = true ∨ charListLe b a = true := by
  intro a
  induction a with
  | nil => intro b; left; rfl
  | cons x xs ih =>
    intro b
    cases b with
    | nil => right; rfl
    | cons y ys =>
      by_cases hxy : x.toNat = y.toNat
      · rcases ih ys with h | h
        · left; simp [charListLe, hxy, h]
        · right; simp [charListLe, hxy.symm, h]
      · rcases Nat.lt_or_ge x.toNat y.toNat with h | h
        · left; simp [charListLe, hxy, h]
        · have h' : y.toNat < x.toNat := by omega
          have hne : ¬ y.toNat = x.toNat := by omega
          right; simp [charListLe, hne, h']

theorem charListLe_trans :
    ∀ a b c : List Char,
      charListLe a b = true → charListLe b c = true → charListLe a c = true := by
  intro a
  induction a with
  | nil => intro b c _ _; rfl
  | cons x xs ih =>
    intro b c hab hbc
    cases b with
    | nil => simp [charListLe] at hab
    | cons y ys =>
      cases c with
      | nil => simp [charListLe] at hbc
      | cons z zs =>
        by_cases hxy : x.toNat = y.toNat
        · by_cases hyz : y.toNat = z.toNat
          · have hxz : x.toNat = z.toNat := hxy.trans hyz
            simp only [charListLe, if_pos hxy] at hab
            simp only [charListLe, if_pos hyz] at hbc
            simp only [charListLe, if_pos hxz]
            exact ih ys zs hab hbc
          · simp only [charListLe, if_neg hyz, decide_eq_true_eq] at hbc
            have hxz : ¬ x.toNat = z.toNat := by omega
            simp only [charListLe, if_neg hxz, decide_eq_true_eq]
            omega
        · simp only [charListLe, if_neg hxy, decide_eq_true_eq] at hab
          by_cases hyz : y.toNat = z.toNat
          · have hxz : ¬ x.toNat = z.toNat := by omega
            simp only [charListLe, if_neg hxz, decide_eq_true_eq]
            omega
          · simp only [charListLe, if_neg hyz, decide_eq_true_eq] at hbc
            have hxz : ¬ x.toNat = z.toNat := by omega
            simp only [charListLe, if_neg hxz, decide_eq_true_eq]
            omega

/-! ### Claim C7 — registry member-list function -/

/-- Claim C7 counterexample: the claim says duplicates are removed, but on a
successful response listing the same address twice (with different ports)
`fetchAllIPs` returns the address twice — the source sorts but never
deduplicates. -/
theorem C7_counterexample :
    fetchAllIPs (some ⟨"success", [⟨"1.2.3.4:31000"⟩, ⟨"1.2.3.4:31001"⟩]⟩) =
      ["1.2.3.4", "1.2.3.4"] ∧
    ¬ (fetchAllIPs (some ⟨"success", [⟨"1.2.3.4:31000"⟩, ⟨"1.2.3.4:31001"⟩]⟩)).Nodup := by
  decide

/-- Claim C7 (amended): for a `status = "success"` response with non-empty
data, `fetchAllIPs` returns the ip fields with any `:port` suffix stripped
and empty strings dropped, sorted ascending by code-unit string comparison,
with duplicates retained (it is a permutation of the stripped list); on a
fetch or parse failure, a non-success status, or empty data, it returns the
empty list. -/
theorem C7_fetchAllIPs_amended :
    (∀ r : RegistryResponse, r.status = "success" → r.data ≠ [] →
      (fetchAllIPs (some r)).Sorted (fun a b => strLe a b = true) ∧
      (fetchAllIPs (some r)).Perm
        ((r.data.map fun n => stripPort n.ip).filter (fun s => s ≠ ""))) ∧
    fetchAllIPs none = [] ∧
    (∀ r : RegistryResponse, ¬ (r.status = "success" ∧ r.data ≠ []) →
      fetchAllIPs (some r) = []) := by
  refine ⟨?_, rfl, ?_⟩
  · intro r h1 h2
    haveI : IsTotal String (fun a b => strLe a b = true) :=
      ⟨fun a b => charListLe_total a.data b.data⟩
    haveI : IsTrans String (fun a b => strLe a b = true) :=
      ⟨fun a b c => charListLe_trans a.data b.data c.data⟩
    simp only [fetchAllIPs, if_pos (And.intro h1 h2)]
    exact ⟨List.sorted_insertionSort _ _, List.perm_insertionSort _ _⟩
  · intro r h
    simp only [fetchAllIPs, if_neg h]

/-- Claim C7 witness: the amended theorem applied to a concrete successful
response. -/
theorem C7_fetchAllIPs_witness :
    ((⟨"success", [⟨"5.6.7.8:31000"⟩]⟩ : RegistryResponse).status = "success" ∧
     (⟨"success", [⟨"5.6.7.8:31000"⟩]⟩ : RegistryResponse).data ≠ []) ∧
    ((fetchAllIPs (some ⟨"success", [⟨"5.6.7.8:31000"⟩]⟩)).Sorted
        (fun a b => strLe a b = true) ∧
     (fetchAllIPs (some ⟨"success", [⟨"5.6.7.8:31000"⟩]⟩)).Perm
       (((⟨"success", [⟨"5.6.7.8:31000"⟩]⟩ : RegistryResponse).data.map
           fun n => stripPort n.ip).filter (fun s => s ≠ ""))) :=
  ⟨⟨rfl, by decide⟩,
   C7_fetchAllIPs_amended.1 ⟨"success", [⟨"5.6.7.8:31000"⟩]⟩ rfl (by decide)⟩

/-! ### Claim C8 — hostname derivation -/

theorem string_data_append (a b : String) : (a ++ b).data = a.data ++ b.data := rfl

theorem takeDigits_append (l : List Char) :
    (takeDigits l).1 ++ (takeDigits l).2 = l := by
  induction l with
  | nil => rfl
  | cons c cs ih =>
    by_cases h : c.isDigit
    · simp [takeDigits, h, ih]
    · simp [takeDigits, h]

theorem takeDigits_digits (l : List Char) :
    ∀ c ∈ (takeDigits l).1, c.isDigit = true := by
  induction l with
  | nil => intro c hc; simp [takeDigits] at hc
  | cons a as ih =>
    intro c hc
    by_cases h : a.isDigit
    · simp only [takeDigits, if_pos h] at hc
      rcases List.mem_cons.mp hc with rfl | hc'
      · exact h
      · exact ih c hc'
    · simp [takeDigits, h] at hc

theorem isIPv4From_chars :
    ∀ (k : Nat) (l : List Char), isIPv4From k l = true →
      ∀ c ∈ l, c.isDigit = true ∨ c = '.' := by
  intro k
  induction k with
  | zero =>
    intro l h c hc
    rw [isIPv4From, Bool.and_eq_true] at h
    obtain ⟨-, h2⟩ := h
    have hrest : (takeDigits l).2 = [] := by
      simpa [List.isEmpty_iff] using h2
    have hl : (takeDigits l).1 = l := by
      have := takeDigits_append l
      rw [hrest, List.append_nil] at this
      exact this
    rw [← hl] at hc
    exact Or.inl (takeDigits_digits l c hc)
  | succ k ih =>
    intro l h c hc
    rw [isIPv4From, Bool.and_eq_true] at h
    obtain ⟨-, h2⟩ := h
    rcases hrest : (takeDigits l).2 with - | ⟨d, rest⟩
    · rw [hrest] at h2; simp at h2
    · rw [hrest] at h2
      simp only [Bool.and_eq_true, decide_eq_true_eq] at h2
      obtain ⟨rfl, hrec⟩ := h2
      have hl : (takeDigits l).1 ++ '.' :: rest = l := by
        conv_rhs => rw [← takeDigits_append l]
        rw [hrest]
      rw [← hl] at hc
      rcases List.mem_append.mp hc with hc1 | hc2
      · exact Or.inl (takeDigits_digits l c hc1)
      · rcases List.mem_cons.mp hc2 with rfl | hc3
        · exact Or.inr rfl
        · exact ih rest hrec c hc3

theorem isIPv4_no_dash (s : String) (h : isIPv4 s = true) :
    ∀ c ∈ s.data, c ≠ '-' := by
  intro c hc he
  rcases isIPv4From_chars 3 s.data h c hc with hd | hd
  · rw [he] at hd; exact absurd hd (by decide)
  · rw [he] at hd; exact absurd hd (by decide)

theorem map_dashToDot_dotToDash (l : List Char) (h : ∀ c ∈ l, c ≠ '-') :
    (l.map dotToDash).map dashToDot = l := by
  induction l with
  | nil => rfl
  | cons c cs ih =>
    simp only [List.map_cons, List.cons.injEq]
    refine ⟨?_, ih (fun x hx => h x (List.mem_cons_of_mem _ hx))⟩
    by_cases hc : c = '.'
    · subst hc; simp [dotToDash, dashToDot]
    · simp [dotToDash, dashToDot, hc, h c (List.mem_cons_self c cs)]

theorem stripPre_append (p r : List Char) : stripPre p (p ++ r) = some r := by
  unfold stripPre
  rw [List.take_left, if_pos rfl, List.drop_left]

theorem stripSuf_append (s m : List Char) : stripSuf s (m ++ s) = some m := by
  unfold stripSuf
  rw [List.reverse_append, stripPre_append, Option.map_some', List.reverse_reverse]

theorem parse_derive (ip : String) (h : isIPv4 ip = true) :
    parseHostname (deriveHostname ip) = some ip := by
  have hdata : (deriveHostname ip).data =
      "mongo-".data ++ (ip.data.map dotToDash ++ ".mongo-cluster".data) := by
    show ("mongo-" ++ (⟨ip.data.map dotToDash⟩ : String) ++ ".mongo-cluster").data = _
    rw [string_data_append, string_data_append, List.append_assoc]
  unfold parseHostname
  rw [hdata, stripPre_append, Option.some_bind, stripSuf_append, Option.map_some',
    map_dashToDot_dotToDash ip.data (isIPv4_no_dash ip h)]

/-- Claim C8: hostname derivation is the total pure map
`A.B.C.D ↦ mongo-A-B-C-D.mongo-cluster`; it is injective on distinct valid
IPv4 addresses, and parsing a derived hostname back to an address followed
by re-derivation is the identity on valid inputs. -/
theorem C8_hostname_derivation :
    (∀ a b : String, isIPv4 a = true → isIPv4 b = true →
      deriveHostname a = deriveHostname b → a = b) ∧
    (∀ ip : String, isIPv4 ip = true →
      parseHostname (deriveHostname ip) = some ip ∧
      (parseHostname (deriveHostname ip)).map deriveHostname =
        some (deriveHostname ip)) := by
  constructor
  · intro a b ha hb hde
    have h1 := parse_derive a ha
    have h2 := parse_derive b hb
    rw [hde, h2] at h1
    exact ((Option.some.injEq b a).mp h1).symm
  · intro ip h
    refine ⟨parse_derive ip h, ?_⟩
    rw [parse_derive ip h, Option.map_some']

/-- Claim C8 witness: the derivation theorem applied to the concrete
addresses `10.0.0.1` and `10.0.0.2`. -/
theorem C8_hostname_derivation_witness :
    (isIPv4 "10.0.0.1" = true ∧ isIPv4 "10.0.0.2" = true) ∧
    parseHostname (deriveHostname "10.0.0.1") = some "10.0.0.1" ∧
    (parseHostname (deriveHostname "10.0.0.1")).map deriveHostname =
      some (deriveHostname "10.0.0.1") :=
  ⟨⟨by decide, by decide⟩, C8_hostname_derivation.2 "10.0.0.1" (by decide)⟩

/-! ### Scan lemmas for `findNodeWithLatestData` -/

theorem tsBeats_eq_decide (t : OplogTs) (a b : Nat) :
    tsBeats t a b = decide (a < t.time ∨ (t.time = a ∧ b < t.counter)) := by
  unfold tsBeats
  by_cases h1 : a < t.time <;> by_cases h2 : t.time = a <;> by_cases h3 : b < t.counter <;>
    simp [h1, h2, h3]

theorem tsLe_trans {a b c : OplogTs} (h1 : tsLe a b) (h2 : tsLe b c) : tsLe a c := by
  unfold tsLe at *; omega

theorem latestScanStep_keep (st : LatestScanState) (e : OplogEntry)
    (h : tsLe e.ts ⟨st.latestTime, st.latestCounter⟩) :
    latestScanStep st e = st := by
  unfold latestScanStep
  rw [if_neg]
  rw [tsBeats_eq_decide]
  simp only [decide_eq_true_eq]
  unfold tsLe at h
  simp only at h
  omega

theorem foldl_scan_keep (l : List OplogEntry) :
    ∀ st : LatestScanState,
      (∀ e ∈ l, tsLe e.ts ⟨st.latestTime, st.latestCounter⟩) →
      l.foldl latestScanStep st = st := by
  induction l with
  | nil => intro st _; rfl
  | cons e es ih =>
    intro st h
    rw [List.foldl_cons, latestScanStep_keep st e (h e (List.mem_cons_self e es))]
    exact ih st (fun x hx => h x (List.mem_cons_of_mem _ hx))

theorem scan_mono (l : List OplogEntry) :
    ∀ st : LatestScanState,
      tsLe ⟨st.latestTime, st.latestCounter⟩
        ⟨(l.foldl latestScanStep st).latestTime,
          (l.foldl latestScanStep st).latestCounter⟩ := by
  induction l with
  | nil =>
    intro st
    simp only [List.foldl_nil]
    unfold tsLe
    dsimp only
    omega
  | cons e es ih =>
    intro st
    rw [List.foldl_cons]
    refine tsLe_trans ?_ (ih (latestScanStep st e))
    unfold latestScanStep
    by_cases hbeat : tsBeats e.ts st.latestTime st.latestCounter = true
    · rw [if_pos hbeat]
      rw [tsBeats_eq_decide] at hbeat
      simp only [decide_eq_true_eq] at hbeat
      unfold tsLe
      dsimp only
      omega
    · rw [if_neg hbeat]
      unfold tsLe
      dsimp only
      omega

theorem scan_ge (l : List OplogEntry) :
    ∀ st : LatestScanState, ∀ e ∈ l,
      tsLe e.ts
        ⟨(l.foldl latestScanStep st).latestTime,
          (l.foldl latestScanStep st).latestCounter⟩ := by
  induction l with
  | nil => intro st e he; simp at he
  | cons x xs ih =>
    intro st e he
    rw [List.foldl_cons]
    rcases List.mem_cons.mp he with rfl | he'
    · refine tsLe_trans ?_ (scan_mono xs (latestScanStep st e))
      unfold latestScanStep
      by_cases hbeat : tsBeats e.ts st.latestTime st.latestCounter = true
      · rw [if_pos hbeat]
        unfold tsLe
        dsimp only
        omega
      · rw [if_neg hbeat]
        rw [tsBeats_eq_decide] at hbeat
        simp only [decide_eq_true_eq] at hbeat
        unfold tsLe
        dsimp only
        omega
    · exact ih (latestScanStep st x) e he'

theorem scan_result (l : List OplogEntry) :
    ∀ st : LatestScanState,
      l.foldl latestScanStep st = st ∨
      ∃ e ∈ l, l.foldl latestScanStep st =
        ⟨some e.ip, e.hostname, e.ts.time, e.ts.counter⟩ := by
  induction l with
  | nil => intro st; left; rfl
  | cons x xs ih =>
    intro st
    rw [List.foldl_cons]
    by_cases hbeat : tsBeats x.ts st.latestTime st.latestCounter = true
    · have hstep : latestScanStep st x = ⟨some x.ip, x.hostname, x.ts.time, x.ts.counter⟩ := by
        unfold latestScanStep; rw [if_pos hbeat]
      rw [hstep]
      rcases ih ⟨some x.ip, x.hostname, x.ts.time, x.ts.counter⟩ with h | ⟨e, he, h⟩
      · exact Or.inr ⟨x, List.mem_cons_self x xs, h⟩
      · exact Or.inr ⟨e, List.mem_cons_of_mem x he, h⟩
    · have hstep : latestScanStep st x = st := by
        unfold latestScanStep; rw [if_neg hbeat]
      rw [hstep]
      rcases ih st with h | ⟨e, he, h⟩
      · exact Or.inl h
      · exact Or.inr ⟨e, List.mem_cons_of_mem x he, h⟩

/-- The scan designates this node when its own timestamp is present, not the
zero sentinel, and at least as large as every peer-reported timestamp. -/
theorem scanLatest_self_max (myIP myHostname : String) (t c : Nat)
    (peers : List OplogEntry)
    (hz : ¬ (t = 0 ∧ c = 0))
    (hle : ∀ e ∈ peers, tsLe e.ts ⟨t, c⟩) :
    scanLatest (oplogEntries myIP myHostname (some ⟨t, c⟩) peers) =
      ⟨some myIP, myHostname, t, c⟩ := by
  show List.foldl latestScanStep ⟨none, "", 0, 0⟩
      (⟨myIP, myHostname, ⟨t, c⟩⟩ :: peers) = _
  rw [List.foldl_cons]
  have hstep : latestScanStep ⟨none, "", 0, 0⟩ ⟨myIP, myHostname, ⟨t, c⟩⟩ =
      ⟨some myIP, myHostname, t, c⟩ := by
    unfold latestScanStep
    rw [if_pos]
    rw [tsBeats_eq_decide]
    simp only [decide_eq_true_eq]
    omega
  rw [hstep]
  exact foldl_scan_keep peers ⟨some myIP, myHostname, t, c⟩ hle

/-! ### Claim C1 — nuclear-resync wipe guard -/

/-- Claim C1 counterexample: when no oplog timestamp could be obtained from
any node (the local read failed and no peer answered), the claim says the
wipe never happens, but `nuclearResync` skips its whole safety block when
`findNodeWithLatestData` returns `null` and proceeds with the wipe. -/
theorem C1_counterexample :
    findNodeWithLatestData "10.0.0.1" "mongo-10-0-0-1.mongo-cluster" none [] = none ∧
    nuclearResyncWipes "10.0.0.1" "mongo-10-0-0-1.mongo-cluster" none [] = true :=
  ⟨rfl, rfl⟩

/-- Claim C1 (amended): the wipe is aborted exactly when the latest-data
scan designates this node; in particular, when this node's own timestamp was
obtained, is not the zero sentinel `(0, 0)`, and no responding peer reported
a lexicographically greater timestamp, no wipe is executed.  (When no
timestamp is obtained from any node, or every obtained timestamp is
`(0, 0)`, the scan designates no node and the wipe does proceed.) -/
theorem C1_wipe_guard_amended (myIP myHostname : String) (t c : Nat)
    (peers : List OplogEntry)
    (hz : ¬ (t = 0 ∧ c = 0))
    (hle : ∀ e ∈ peers, tsLe e.ts ⟨t, c⟩) :
    nuclearResyncWipes myIP myHostname (some ⟨t, c⟩) peers = false := by
  unfold nuclearResyncWipes findNodeWithLatestData
  rw [scanLatest_self_max myIP myHostname t c peers hz hle]
  simp

/-- Claim C1 witness: the amended wipe guard applied to a node whose
timestamp `(5, 0)` ties one peer and exceeds another. -/
theorem C1_wipe_guard_witness :
    (¬ ((5 : Nat) = 0 ∧ (0 : Nat) = 0) ∧
     ∀ e ∈ [(⟨"10.0.0.2", "mongo-10-0-0-2.mongo-cluster", ⟨5, 0⟩⟩ : OplogEntry),
            (⟨"10.0.0.3", "mongo-10-0-0-3.mongo-cluster", ⟨4, 9⟩⟩ : OplogEntry)],
       tsLe e.ts ⟨5, 0⟩) ∧
    nuclearResyncWipes "10.0.0.1" "mongo-10-0-0-1.mongo-cluster" (some ⟨5, 0⟩)
      [⟨"10.0.0.2", "mongo-10-0-0-2.mongo-cluster", ⟨5, 0⟩⟩,
       ⟨"10.0.0.3", "mongo-10-0-0-3.mongo-cluster", ⟨4, 9⟩⟩] = false :=
  ⟨⟨by decide, by decide⟩,
   C1_wipe_guard_amended "10.0.0.1" "mongo-10-0-0-1.mongo-cluster" 5 0
     [⟨"10.0.0.2", "mongo-10-0-0-2.mongo-cluster", ⟨5, 0⟩⟩,
      ⟨"10.0.0.3", "mongo-10-0-0-3.mongo-cluster", ⟨4, 9⟩⟩]
     (by decide) (by decide)⟩

/-! ### Claim C9 — ties favour self in the latest-data comparison -/

/-- Claim C9 counterexample: with the node's own timestamp obtained and
equal to the maximum over all responders — but equal to the zero sentinel —
the scan designates nobody (`null`), not self, and the nuclear resync does
not abort: it wipes. -/
theorem C9_counterexample :
    findNodeWithLatestData "10.0.0.1" "mongo-10-0-0-1.mongo-cluster"
      (some ⟨0, 0⟩) [] = none ∧
    nuclearResyncWipes "10.0.0.1" "mongo-10-0-0-1.mongo-cluster"
      (some ⟨0, 0⟩) [] = true :=
  ⟨rfl, rfl⟩

/-- Claim C9 (amended): ties favour self provided this node's own timestamp
is not the zero sentinel: whenever it is obtained, differs from `(0, 0)`,
and is greater than or equal to every responding peer's timestamp (ties
included), the scan designates self — self is inserted first and a later
entry displaces the current best only when strictly greater — and the
nuclear resync aborts. -/
theorem C9_tie_favours_self (myIP myHostname : String) (t c : Nat)
    (peers : List OplogEntry)
    (hz : ¬ (t = 0 ∧ c = 0))
    (hle : ∀ e ∈ peers, tsLe e.ts ⟨t, c⟩) :
    findNodeWithLatestData myIP myHostname (some ⟨t, c⟩) peers =
      some ⟨myIP, myHostname, t, c, true⟩ ∧
    nuclearResyncWipes myIP myHostname (some ⟨t, c⟩) peers = false := by
  have hfind : findNodeWithLatestData myIP myHostname (some ⟨t, c⟩) peers =
      some ⟨myIP, myHostname, t, c, true⟩ := by
    unfold findNodeWithLatestData
    rw [scanLatest_self_max myIP myHostname t c peers hz hle]
    simp
  refine ⟨hfind, ?_⟩
  unfold nuclearResyncWipes
  rw [hfind]
  rfl

/-- Claim C9 witness: an exact timestamp tie `(7, 3)` between self and the
only responding peer designates self and aborts the wipe. -/
theorem C9_tie_favours_self_witness :
    (¬ ((7 : Nat) = 0 ∧ (3 : Nat) = 0) ∧
     ∀ e ∈ [(⟨"10.0.0.2", "mongo-10-0-0-2.mongo-cluster", ⟨7, 3⟩⟩ : OplogEntry)],
       tsLe e.ts ⟨7, 3⟩) ∧
    findNodeWithLatestData "10.0.0.1" "mongo-10-0-0-1.mongo-cluster" (some ⟨7, 3⟩)
        [⟨"10.0.0.2", "mongo-10-0-0-2.mongo-cluster", ⟨7, 3⟩⟩] =
      some ⟨"10.0.0.1", "mongo-10-0-0-1.mongo-cluster", 7, 3, true⟩ ∧
    nuclearResyncWipes "10.0.0.1" "mongo-10-0-0-1.mongo-cluster" (some ⟨7, 3⟩)
        [⟨"10.0.0.2", "mongo-10-0-0-2.mongo-cluster", ⟨7, 3⟩⟩] = false :=
  ⟨⟨by decide, by decide⟩,
   C9_tie_favours_self "10.0.0.1" "mongo-10-0-0-1.mongo-cluster" 7 3
     [⟨"10.0.0.2", "mongo-10-0-0-2.mongo-cluster", ⟨7, 3⟩⟩]
     (by decide) (by decide)⟩

/-! ### Claim C4 — stale-primary step-down -/

/-- Claim C4 counterexample: the peer's timestamp `(100, 2)` is
lexicographically strictly greater than self's `(100, 1)` (equal seconds,
greater counter), the node is primary with one known peer — the claim says a
300-second step-down is requested — yet the final gate compares seconds
only (`timeDiff > 0`), so no step-down is requested. -/
theorem C4_counterexample :
    stalePrimaryStepDown true "10.0.0.1" "mongo-10-0-0-1.mongo-cluster"
        (some ⟨100, 1⟩) ["10.0.0.2"]
        [⟨"10.0.0.2", "mongo-10-0-0-2.mongo-cluster", ⟨100, 2⟩⟩] = none ∧
    tsLe ⟨100, 1⟩ ⟨100, 2⟩ ∧ (⟨100, 1⟩ : OplogTs) ≠ ⟨100, 2⟩ :=
  ⟨by decide, by decide, by decide⟩

/-- Claim C4 (amended): while primary with at least one known peer and an
obtained local timestamp `(t, c)`, the check requests a step-down of exactly
300 seconds if and only if some responding peer reported a timestamp whose
seconds strictly exceed `t`; a peer ahead only in the counter (equal
seconds) triggers no step-down, because the final gate tests
`latest.time - myOplog.time > 0` and ignores the counter. -/
theorem C4_stepdown_gate (myIP myHostname : String) (t c : Nat)
    (peerIPs : List String) (peers : List OplogEntry)
    (hp : peerIPs ≠ [])
    (hnotme : ∀ e ∈ peers, e.ip ≠ myIP) :
    stalePrimaryStepDown true myIP myHostname (some ⟨t, c⟩) peerIPs peers = some 300 ↔
      ∃ e ∈ peers, t < e.ts.time := by
  have hlen : 0 < peerIPs.length := List.length_pos.mpr hp
  have hcond : (true && decide (0 < peerIPs.length)) = true := by simp [hlen]
  have hentries : oplogEntries myIP myHostname (some ⟨t, c⟩) peers =
      ⟨myIP, myHostname, ⟨t, c⟩⟩ :: peers := rfl
  have hscan : scanLatest (oplogEntries myIP myHostname (some ⟨t, c⟩) peers) =
      (⟨myIP, myHostname, ⟨t, c⟩⟩ :: peers).foldl latestScanStep ⟨none, "", 0, 0⟩ := by
    rw [hentries]; rfl
  have hge : ∀ e ∈ ⟨myIP, myHostname, ⟨t, c⟩⟩ :: peers,
      tsLe e.ts
        ⟨((⟨myIP, myHostname, ⟨t, c⟩⟩ :: peers).foldl latestScanStep
            ⟨none, "", 0, 0⟩).latestTime,
          ((⟨myIP, myHostname, ⟨t, c⟩⟩ :: peers).foldl latestScanStep
            ⟨none, "", 0, 0⟩).latestCounter⟩ :=
    scan_ge (⟨myIP, myHostname, ⟨t, c⟩⟩ :: peers) ⟨none, "", 0, 0⟩
  unfold stalePrimaryStepDown
  rw [if_pos hcond]
  unfold findNodeWithLatestData
  rw [hscan]
  rcases scan_result (⟨myIP, myHostname, ⟨t, c⟩⟩ :: peers) ⟨none, "", 0, 0⟩ with
    hres | ⟨e, he, hres⟩
  · -- the scan never left the sentinel: everything was (0, 0)
    rw [hres]
    dsimp only
    constructor
    · intro hfalse; exact absurd hfalse (by simp)
    · rintro ⟨e, he, hgt⟩
      have := hge e (List.mem_cons_of_mem _ he)
      rw [hres] at this
      unfold tsLe at this
      dsimp only at this
      omega
  · rw [hres]
    dsimp only
    rcases List.mem_cons.mp he with heq | hpeer
    · -- the designated record is self's: isMe, no step-down
      have hip : e.ip = myIP := by rw [heq]
      have htime : e.ts.time = t := by rw [heq]
      rw [hip]
      simp only [decide_eq_true_eq, if_pos rfl]
      constructor
      · intro hfalse
        simp at hfalse
      · rintro ⟨x, hx, hgt⟩
        have := hge x (List.mem_cons_of_mem _ hx)
        rw [hres] at this
        unfold tsLe at this
        dsimp only at this
        omega
    · -- the designated record is a peer's
      have hip : ¬ (e.ip = myIP) := hnotme e hpeer
      rw [decide_eq_false hip]
      simp only [Bool.not_false, if_pos rfl]
      by_cases hgt : (0 : Int) < (e.ts.time : Int) - (t : Int)
      · rw [if_pos hgt]
        constructor
        · intro _; exact ⟨e, hpeer, by omega⟩
        · intro _; rfl
      · rw [if_neg hgt]
        constructor
        · intro hfalse; exact absurd hfalse (by simp)
        · rintro ⟨x, hx, hxt⟩
          have := hge x (List.mem_cons_of_mem _ hx)
          rw [hres] at this
          unfold tsLe at this
          dsimp only at this
          omega

/-- Claim C4 witness: the amended gate applied with one peer whose seconds
`200` strictly exceed self's `100` — a 300-second step-down is requested. -/
theorem C4_stepdown_gate_witness :
    ((["10.0.0.2"] : List String) ≠ [] ∧
     ∀ e ∈ [(⟨"10.0.0.2", "mongo-10-0-0-2.mongo-cluster", ⟨200, 0⟩⟩ : OplogEntry)],
       e.ip ≠ "10.0.0.1") ∧
    stalePrimaryStepDown true "10.0.0.1" "mongo-10-0-0-1.mongo-cluster"
        (some ⟨100, 1⟩) ["10.0.0.2"]
        [⟨"10.0.0.2", "mongo-10-0-0-2.mongo-cluster", ⟨200, 0⟩⟩] = some 300 :=
  ⟨⟨by decide, by decide⟩,
   (C4_stepdown_gate "10.0.0.1" "mongo-10-0-0-1.mongo-cluster" 100 1 ["10.0.0.2"]
       [⟨"10.0.0.2", "mongo-10-0-0-2.mongo-cluster", ⟨200, 0⟩⟩]
       (by decide) (by decide)).mpr
     ⟨⟨"10.0.0.2", "mongo-10-0-0-2.mongo-cluster", ⟨200, 0⟩⟩, by decide, by decide⟩⟩

/-! ### Trace lemmas for the reconciliation cycle -/

theorem countP_check_buildAndSubmit (env : ReconcileEnv) (cfg : RSConfig) :
    (buildAndSubmit env cfg).1.countP isPrimaryCheck = 0 := by
  unfold buildAndSubmit
  dsimp only
  repeat' split
  all_goals simp [isPrimaryCheck, List.countP_append, List.countP_cons]

theorem countP_check_membershipPhase (env : ReconcileEnv) :
    (membershipPhase env).1.countP isPrimaryCheck = 0 := by
  unfold membershipPhase
  cases h1 : env.config1 with
  | some cfg =>
    simp [List.countP_cons, isPrimaryCheck, countP_check_buildAndSubmit env cfg]
  | none =>
    cases h2 : env.config2 with
    | some cfg =>
      simp [List.countP_append, List.countP_cons, isPrimaryCheck,
        countP_check_buildAndSubmit env cfg]
    | none => rfl

theorem countP_check_splitBrainPath (env : ReconcileEnv) :
    (splitBrainPath env).countP isPrimaryCheck = 0 := by
  unfold splitBrainPath
  split <;> [rfl; skip]
  split <;> rfl

theorem countP_check_queryEvents (env : ReconcileEnv) :
    (env.peerIPs.map Event.queryPeerPrimary).countP isPrimaryCheck = 0 := by
  rw [List.countP_eq_zero]
  intro a ha
  obtain ⟨ip, -, rfl⟩ := List.mem_map.mp ha
  simp [isPrimaryCheck]

theorem countP_check_postPrimary (env : ReconcileEnv) :
    (postPrimary env).1.countP isPrimaryCheck = 0 := by
  unfold postPrimary
  repeat' split
  all_goals
    simp [List.countP_cons, List.countP_append, isPrimaryCheck,
      countP_check_queryEvents env, countP_check_membershipPhase env,
      countP_check_splitBrainPath env]

/-! ### Claim C2 — primary re-verification before reconfigure -/

/-- Claim C2 counterexample: a cycle that submits a reconfigure, in which
the event immediately preceding the submission is the config fetch, not an
`isPrimary()` check — the code performs its single primary check at the top
of the cycle and never re-verifies before submitting. -/
theorem C2_counterexample :
    (runReconcile envC2).1.any isSubmit = true ∧
    immediateRecheckOk (runReconcile envC2).1 = false := by
  decide

/-- Claim C2 (amended): in every cycle that submits a reconfigure,
`isPrimary()` was checked exactly once, as the very first operation of the
cycle — before the consensus check — and returned true; no second check
occurs immediately before the submission (registry fetch, consensus
queries and the config fetch all happen between the single check and the
submit). -/
theorem C2_single_primary_check (env : ReconcileEnv)
    (h : (runReconcile env).1.any isSubmit = true) :
    (runReconcile env).1.head? = some (Event.checkPrimary true) ∧
    (runReconcile env).1.countP isPrimaryCheck = 1 := by
  unfold runReconcile at h ⊢
  by_cases hp : env.isPrimaryRes = true
  · rw [if_pos hp] at h ⊢
    refine ⟨rfl, ?_⟩
    simp [List.countP_cons, isPrimaryCheck, countP_check_postPrimary env]
  · rw [if_neg hp] at h
    simp [isSubmit] at h

/-- Claim C2 witness: the amended statement at the concrete submitting
cycle `envC2`. -/
theorem C2_single_primary_check_witness :
    (runReconcile envC2).1.any isSubmit = true ∧
    ((runReconcile envC2).1.head? = some (Event.checkPrimary true) ∧
     (runReconcile envC2).1.countP isPrimaryCheck = 1) :=
  ⟨by decide, C2_single_primary_check envC2 (by decide)⟩

/-! ### Claim C3 — registry outage must not mutate membership -/

/-- Claim C3: the claim (and the repository's own README, which promises
that the controller "preserves last-known configuration during API
outages") says a failed registry fetch yields zero admin mutations.  The
code disagrees: with both fetches returning the empty list, the desired
member set collapses to self alone, every other member lands in `toRemove`,
and the cycle submits a `replSetReconfig` that strips the peer out of the
replica set. -/
theorem C3_registry_outage_strips_members :
    fetchAllIPs none = [] ∧
    (runReconcile envC3).2 =
      some ⟨[⟨0, "mongo-10-0-0-1.mongo-cluster:27017"⟩], 8⟩ ∧
    Event.submitReconfig ⟨[⟨0, "mongo-10-0-0-1.mongo-cluster:27017"⟩], 8⟩ ∈
      (runReconcile envC3).1 :=
  ⟨rfl, by decide, by decide⟩

/-! ### Consensus lemmas -/

theorem count_add_count_le_length {p q : String} (h : p ≠ q) (l : List String) :
    l.count p + l.count q ≤ l.length := by
  induction l with
  | nil => simp
  | cons x xs ih =>
    simp only [List.count_cons, List.length_cons, beq_iff_eq]
    by_cases hp : p = x <;> by_cases hq : q = x
    · exact absurd (hp.trans hq.symm) h
    · rw [if_pos hp.symm, if_neg (fun e => hq e.symm)]; omega
    · rw [if_neg (fun e => hp e.symm), if_pos hq.symm]; omega
    · rw [if_neg (fun e => hp e.symm), if_neg (fun e => hq e.symm)]; omega

theorem mem_dedupFirst : ∀ (l : List String) (v : String), v ∈ dedupFirst l ↔ v ∈ l := by
  intro l
  induction l with
  | nil => intro v; simp [dedupFirst]
  | cons x xs ih =>
    intro v
    simp only [dedupFirst, List.mem_cons, List.mem_filter]
    constructor
    · rintro (rfl | ⟨hv, -⟩)
      · exact Or.inl rfl
      · exact Or.inr ((ih v).mp hv)
    · rintro (rfl | hv)
      · exact Or.inl rfl
      · by_cases hvx : v = x
        · exact Or.inl hvx
        · exact Or.inr ⟨(ih v).mpr hv, by simp [hvx]⟩

theorem consensusPrimary_some (votes : List String) (thr : Nat) (p : String)
    (h : consensusPrimary votes thr = some p) :
    thr ≤ votes.count p ∧ p ∈ votes := by
  unfold consensusPrimary at h
  have h1 := List.find?_some h
  have h2 := List.mem_of_find?_eq_some h
  exact ⟨by simpa using h1, (mem_dedupFirst votes p).mp h2⟩

theorem consensusPrimary_exists (votes : List String) (thr : Nat) (q : String)
    (hthr : 0 < thr) (hq : thr ≤ votes.count q) :
    ∃ p, consensusPrimary votes thr = some p ∧ thr ≤ votes.count p := by
  have hmem : q ∈ votes := List.count_pos_iff.mp (lt_of_lt_of_le hthr hq)
  have hex : ∃ x ∈ dedupFirst votes, (decide (thr ≤ votes.count x)) = true :=
    ⟨q, (mem_dedupFirst votes q).mpr hmem, by simpa using hq⟩
  obtain ⟨p, hp⟩ := Option.isSome_iff_exists.mp (List.find?_isSome.mpr hex)
  refine ⟨p, hp, ?_⟩
  have := List.find?_some hp
  simpa using this

theorem majority_unique (votes : List String) (N : Nat) (hlen : votes.length ≤ N)
    {p q : String} (hp : N / 2 + 1 ≤ votes.count p) (hq : N / 2 + 1 ≤ votes.count q) :
    p = q := by
  by_contra hne
  have := count_add_count_le_length hne votes
  omega

theorem stepDown_not_mem_buildAndSubmit (env : ReconcileEnv) (cfg : RSConfig) (n : Nat) :
    Event.stepDown n ∉ (buildAndSubmit env cfg).1 := by
  unfold buildAndSubmit
  dsimp only
  repeat' split
  all_goals simp

theorem stepDown_not_mem_membershipPhase (env : ReconcileEnv) (n : Nat) :
    Event.stepDown n ∉ (membershipPhase env).1 := by
  unfold membershipPhase
  cases h1 : env.config1 with
  | some cfg =>
    intro h
    rcases List.mem_cons.mp h with he | h2
    · simp at he
    · exact stepDown_not_mem_buildAndSubmit env cfg n h2
  | none =>
    cases h2 : env.config2 with
    | some cfg =>
      intro h
      rcases List.mem_append.mp h with h3 | h4
      · simp at h3
      · exact stepDown_not_mem_buildAndSubmit env cfg n h4
    | none =>
      intro h
      simp at h

theorem stepDown_not_mem_queryEvents (env : ReconcileEnv) (n : Nat) :
    Event.stepDown n ∉ env.peerIPs.map Event.queryPeerPrimary := by
  intro h
  obtain ⟨ip, -, he⟩ := List.mem_map.mp h
  simp at he

theorem query_not_mem_buildAndSubmit (env : ReconcileEnv) (cfg : RSConfig) (ip : String) :
    Event.queryPeerPrimary ip ∉ (buildAndSubmit env cfg).1 := by
  unfold buildAndSubmit
  dsimp only
  repeat' split
  all_goals simp

theorem query_not_mem_membershipPhase (env : ReconcileEnv) (ip : String) :
    Event.queryPeerPrimary ip ∉ (membershipPhase env).1 := by
  unfold membershipPhase
  cases h1 : env.config1 with
  | some cfg =>
    intro h
    rcases List.mem_cons.mp h with he | h2
    · simp at he
    · exact query_not_mem_buildAndSubmit env cfg ip h2
  | none =>
    cases h2 : env.config2 with
    | some cfg =>
      intro h
      rcases List.mem_append.mp h with h3 | h4
      · simp at h3
      · exact query_not_mem_buildAndSubmit env cfg ip h4
    | none =>
      intro h
      simp at h

theorem stepDown60_mem_splitBrainPath (env : ReconcileEnv) :
    Event.stepDown 60 ∈ splitBrainPath env := by
  unfold splitBrainPath
  exact List.mem_append_left _ (List.mem_cons_self _ _)

/-- Structural characterisation: a 60-second step-down (the split-brain
recovery entry point) occurs in a primary cycle's trace exactly when more
than one node is known and the consensus scan finds a primary hostname
that differs from this node's `myHostname:port`. -/
theorem stepDown60_mem_iff (env : ReconcileEnv) (hprim : env.isPrimaryRes = true) :
    Event.stepDown 60 ∈ (runReconcile env).1 ↔
      (1 < env.registry.length ∧
        ∃ p, consensusPrimary (env.replies.filterMap id)
            (env.registry.length / 2 + 1) = some p ∧
          p ≠ env.myHostname ++ ":" ++ env.port) := by
  unfold runReconcile
  rw [if_pos hprim]
  constructor
  · intro h
    rcases List.mem_cons.mp h with he | hpost
    · simp at he
    · unfold postPrimary at hpost
      by_cases hN : 1 < env.registry.length
      · rw [if_pos hN] at hpost
        cases hc : consensusPrimary (env.replies.filterMap id)
            (env.registry.length / 2 + 1) with
        | none =>
          rw [hc] at hpost
          dsimp only at hpost
          rcases List.mem_cons.mp hpost with he | h2
          · simp at he
          · rcases List.mem_append.mp h2 with h3 | h3
            · exact absurd h3 (stepDown_not_mem_queryEvents env 60)
            · exact absurd h3 (stepDown_not_mem_membershipPhase env 60)
        | some p =>
          rw [hc] at hpost
          dsimp only at hpost
          by_cases hne : p ≠ env.myHostname ++ ":" ++ env.port
          · exact ⟨hN, p, rfl, hne⟩
          · rw [if_neg hne] at hpost
            dsimp only at hpost
            rcases List.mem_cons.mp hpost with he | h2
            · simp at he
            · rcases List.mem_append.mp h2 with h3 | h3
              · exact absurd h3 (stepDown_not_mem_queryEvents env 60)
              · exact absurd h3 (stepDown_not_mem_membershipPhase env 60)
      · rw [if_neg hN] at hpost
        dsimp only at hpost
        rcases List.mem_cons.mp hpost with he | h2
        · simp at he
        · exact absurd h2 (stepDown_not_mem_membershipPhase env 60)
  · rintro ⟨hN, p, hc, hne⟩
    refine List.mem_cons_of_mem _ ?_
    unfold postPrimary
    rw [if_pos hN, hc]
    dsimp only
    rw [if_pos hne]
    exact List.mem_cons_of_mem _
      (List.mem_append_right _ (stepDown60_mem_splitBrainPath env))

/-! ### Claim C5 — consensus check and split-brain trigger -/

/-- Claim C5: the consensus check runs only when the registry reports more
than one known node; with `N` known nodes the majority threshold is
`⌊N/2⌋ + 1`; and (under a registry that answers both of the cycle's fetches
consistently, so the queried peers are exactly the known nodes other than
self) the split-brain recovery is triggered exactly when at least
`⌊N/2⌋ + 1` peer votes name one primary hostname different from this node's
`myHostname:port` while this node believes itself primary. -/
theorem C5_consensus_split_brain (env : ReconcileEnv)
    (hprim : env.isPrimaryRes = true)
    (hpeers : env.peerIPs = env.registry.filter (fun ip => ip ≠ env.myIP))
    (hlen : env.replies.length = env.peerIPs.length) :
    ((∃ ip, Event.queryPeerPrimary ip ∈ (runReconcile env).1) →
      1 < env.registry.length) ∧
    (Event.stepDown 60 ∈ (runReconcile env).1 ↔
      1 < env.registry.length ∧
      ∃ p, p ≠ env.myHostname ++ ":" ++ env.port ∧
        env.registry.length / 2 + 1 ≤ (env.replies.filterMap id).count p) := by
  have hvlen : (env.replies.filterMap id).length ≤ env.registry.length := by
    have h1 := List.length_filterMap_le id env.replies
    have h2 : env.peerIPs.length =
        (env.registry.filter (fun ip => ip ≠ env.myIP)).length := by rw [hpeers]
    have h3 := List.length_filter_le (fun ip => decide (ip ≠ env.myIP)) env.registry
    omega
  constructor
  · rintro ⟨ip, hip⟩
    by_contra hN
    unfold runReconcile at hip
    rw [if_pos hprim] at hip
    rcases List.mem_cons.mp hip with he | hpost
    · simp at he
    · unfold postPrimary at hpost
      rw [if_neg hN] at hpost
      dsimp only at hpost
      rcases List.mem_cons.mp hpost with he | h2
      · simp at he
      · exact absurd h2 (query_not_mem_membershipPhase env ip)
  · rw [stepDown60_mem_iff env hprim]
    constructor
    · rintro ⟨hN, p, hc, hne⟩
      obtain ⟨hcount, -⟩ := consensusPrimary_some _ _ p hc
      exact ⟨hN, p, hne, hcount⟩
    · rintro ⟨hN, q, hqne, hqcount⟩
      obtain ⟨p, hp, hpcount⟩ :=
        consensusPrimary_exists (env.replies.filterMap id)
          (env.registry.length / 2 + 1) q (Nat.succ_pos _) hqcount
      have hpq : p = q :=
        majority_unique (env.replies.filterMap id) env.registry.length hvlen
          hpcount hqcount
      exact ⟨hN, p, hp, by rw [hpq]; exact hqne⟩

/-- Claim C5 witness: in the three-node cycle `envC5`, both peers vote for
the second node, meeting the threshold `⌊3/2⌋ + 1 = 2`, and the trace
contains the 60-second step-down that opens split-brain recovery. -/
theorem C5_consensus_split_brain_witness :
    Event.stepDown 60 ∈ (runReconcile envC5).1 :=
  (C5_consensus_split_brain envC5 rfl (by decide) rfl).2.mpr
    ⟨by decide, "mongo-10-0-0-2.mongo-cluster:27017", by decide, by decide⟩

/-! ### Claim C10 — two known nodes cannot reach the consensus threshold -/

/-- Claim C10: with exactly two known nodes (self among them, and the
registry answering both fetches consistently) the consensus-based
split-brain path is unreachable: the threshold is `⌊2/2⌋ + 1 = 2`, but only
the single peer can vote, so no primary hostname can collect two votes and
the recovery step-down never appears in the trace, regardless of what the
peer reports. -/
theorem C10_two_node_no_split_brain (env : ReconcileEnv)
    (hprim : env.isPrimaryRes = true)
    (h2 : env.registry.length = 2)
    (hself : env.myIP ∈ env.registry)
    (hpeers : env.peerIPs = env.registry.filter (fun ip => ip ≠ env.myIP))
    (hlen : env.replies.length = env.peerIPs.length) :
    Event.stepDown 60 ∉ (runReconcile env).1 := by
  intro hmem
  obtain ⟨hN, p, hc, -⟩ := (stepDown60_mem_iff env hprim).mp hmem
  obtain ⟨hcount, -⟩ := consensusPrimary_some _ _ p hc
  have hflt : (env.registry.filter (fun ip => ip ≠ env.myIP)).length <
      env.registry.length := by
    rw [List.length_filter_lt_length_iff_exists]
    exact ⟨env.myIP, hself, by simp⟩
  have hfm := List.length_filterMap_le id env.replies
  have hcl := List.count_le_length p (env.replies.filterMap id)
  have hpl : env.peerIPs.length =
      (env.registry.filter (fun ip => ip ≠ env.myIP)).length := by rw [hpeers]
  omega

/-- Claim C10 witness: the two-node cycle `envC10`, whose peer votes for a
different primary, still never reaches the split-brain step-down. -/
theorem C10_two_node_no_split_brain_witness :
    Event.stepDown 60 ∉ (runReconcile envC10).1 :=
  C10_two_node_no_split_brain envC10 rfl (by decide) (by decide) (by decide) rfl

/-! ### Member-id lemmas for the membership sync -/

theorem maxId_le_foldl :
    ∀ (ms : List RSMember) (a : Nat), a ≤ ms.foldl (fun x m => max x m.id) a := by
  intro ms
  induction ms with
  | nil => intro a; exact le_refl a
  | cons m rest ih =>
    intro a
    rw [List.foldl_cons]
    exact le_trans (le_max_left a m.id) (ih (max a m.id))

theorem mem_le_foldl_max :
    ∀ (ms : List RSMember) (a : Nat) (m : RSMember),
      m ∈ ms → m.id ≤ ms.foldl (fun x m => max x m.id) a := by
  intro ms
  induction ms with
  | nil => intro a m hm; simp at hm
  | cons x xs ih =>
    intro a m hm
    rw [List.foldl_cons]
    rcases List.mem_cons.mp hm with rfl | hm'
    · exact le_trans (le_max_right a m.id) (maxId_le_foldl xs (max a m.id))
    · exact ih (max a x.id) m hm'

theorem le_maxId (ms : List RSMember) (m : RSMember) (hm : m ∈ ms) :
    m.id ≤ maxId ms :=
  mem_le_foldl_max ms 0 m hm

theorem maxId_append_single (ms : List RSMember) (x : RSMember) :
    maxId (ms ++ [x]) = max (maxId ms) x.id := by
  unfold maxId
  rw [List.foldl_append]
  rfl

theorem addMembers_spec (port : String) :
    ∀ (hosts : List String) (ms : List RSMember),
      ∃ ns, addMembers ms hosts port = ms ++ ns ∧
        (∀ m ∈ ns, maxId ms < m.id) ∧ (ns.map RSMember.id).Nodup := by
  intro hosts
  induction hosts with
  | nil =>
    intro ms
    exact ⟨[], by simp [addMembers], by simp, by simp⟩
  | cons h hs ih =>
    intro ms
    have hstep : addMembers ms (h :: hs) port =
        addMembers (ms ++ [⟨maxId ms + 1, h ++ ":" ++ port⟩]) hs port := rfl
    obtain ⟨ns, h1, h2, h3⟩ := ih (ms ++ [⟨maxId ms + 1, h ++ ":" ++ port⟩])
    have hmax : maxId (ms ++ [(⟨maxId ms + 1, h ++ ":" ++ port⟩ : RSMember)]) =
        max (maxId ms) (maxId ms + 1) :=
      maxId_append_single ms ⟨maxId ms + 1, h ++ ":" ++ port⟩
    refine ⟨⟨maxId ms + 1, h ++ ":" ++ port⟩ :: ns, ?_, ?_, ?_⟩
    · rw [hstep, h1, List.append_assoc]
      rfl
    · intro m hm
      rcases List.mem_cons.mp hm with rfl | hm'
      · exact Nat.lt_succ_self _
      · have := h2 m hm'
        omega
    · rw [List.map_cons, List.nodup_cons]
      refine ⟨?_, h3⟩
      intro hmem
      obtain ⟨m, hm, hid⟩ := List.mem_map.mp hmem
      have := h2 m hm
      dsimp only at hid
      omega

theorem removeMembers_sublist :
    ∀ (hosts : List String) (ms : List RSMember),
      (removeMembers ms hosts).Sublist ms := by
  intro hosts
  induction hosts with
  | nil => intro ms; exact List.Sublist.refl ms
  | cons h hs ih =>
    intro ms
    have hstep : removeMembers ms (h :: hs) =
        removeMembers
          (match ms.findIdx? (fun m => h.data.isPrefixOf m.host.data) with
           | some i => ms.eraseIdx i
           | none => ms) hs := rfl
    rw [hstep]
    cases hf : ms.findIdx? (fun m => h.data.isPrefixOf m.host.data) with
    | some i => exact (ih (ms.eraseIdx i)).trans (List.eraseIdx_sublist ms i)
    | none => exact ih ms

theorem membershipPhase_outcome (env : ReconcileEnv) (cfg' : RSConfig)
    (h : (membershipPhase env).2 = some cfg') :
    ∃ cfg, effectiveConfig env = some cfg ∧ (buildAndSubmit env cfg).2 = some cfg' := by
  unfold membershipPhase at h
  unfold effectiveConfig
  cases h1 : env.config1 with
  | some cfg =>
    rw [h1] at h
    exact ⟨cfg, rfl, h⟩
  | none =>
    rw [h1] at h
    cases h2 : env.config2 with
    | some cfg =>
      rw [h2] at h
      exact ⟨cfg, rfl, h⟩
    | none =>
      rw [h2] at h
      simp at h

theorem runReconcile_outcome (env : ReconcileEnv) (cfg' : RSConfig)
    (h : (runReconcile env).2 = some cfg') :
    ∃ cfg, effectiveConfig env = some cfg ∧ (buildAndSubmit env cfg).2 = some cfg' := by
  unfold runReconcile at h
  by_cases hp : env.isPrimaryRes = true
  · rw [if_pos hp] at h
    dsimp only at h
    unfold postPrimary at h
    by_cases hN : 1 < env.registry.length
    · rw [if_pos hN] at h
      cases hc : consensusPrimary (env.replies.filterMap id)
          (env.registry.length / 2 + 1) with
      | some p =>
        rw [hc] at h
        dsimp only at h
        by_cases hne : p ≠ env.myHostname ++ ":" ++ env.port
        · rw [if_pos hne] at h
          simp at h
        · rw [if_neg hne] at h
          exact membershipPhase_outcome env cfg' h
      | none =>
        rw [hc] at h
        dsimp only at h
        exact membershipPhase_outcome env cfg' h
    · rw [if_neg hN] at h
      dsimp only at h
      exact membershipPhase_outcome env cfg' h
  · rw [if_neg hp] at h
    simp at h

theorem buildAndSubmit_spec (env : ReconcileEnv) (cfg cfg' : RSConfig)
    (hnd : (cfg.members.map RSMember.id).Nodup)
    (h : (buildAndSubmit env cfg).2 = some cfg') :
    (∀ m ∈ cfg'.members, m ∈ cfg.members ∨ maxId cfg.members < m.id) ∧
    (cfg'.members.map RSMember.id).Nodup ∧
    cfg'.version = cfg.version + 1 := by
  unfold buildAndSubmit at h
  dsimp only at h
  split at h
  · simp at h
  · dsimp only at h
    have hcfg' := (Option.some.inj h).symm
    obtain ⟨ns, ha1, ha2, ha3⟩ :=
      addMembers_spec env.port
        (List.filter
          (fun hst =>
            !(List.map (fun m => hostPrefix m.host) cfg.members).contains hst)
          (env.myHostname :: List.map deriveHostname env.peerIPs))
        cfg.members
    rw [ha1] at hcfg'
    have hsubl :
        (removeMembers (cfg.members ++ ns)
          (List.filter
            (fun hst =>
              decide (hst ≠ env.myHostname) &&
                !(env.myHostname :: List.map deriveHostname env.peerIPs).contains hst)
            (List.map (fun m => hostPrefix m.host) cfg.members))).Sublist
          (cfg.members ++ ns) :=
      removeMembers_sublist _ (cfg.members ++ ns)
    refine ⟨?_, ?_, ?_⟩
    · intro m hm
      rw [hcfg'] at hm
      dsimp only at hm
      have hm2 : m ∈ cfg.members ++ ns := hsubl.subset hm
      rcases List.mem_append.mp hm2 with h1 | h1
      · exact Or.inl h1
      · exact Or.inr (ha2 m h1)
    · rw [hcfg']
      dsimp only
      refine List.Nodup.sublist (List.Sublist.map RSMember.id hsubl) ?_
      rw [List.map_append, List.nodup_append]
      refine ⟨hnd, ha3, ?_⟩
      intro a ha hb
      obtain ⟨m1, hm1, hid1⟩ := List.mem_map.mp ha
      obtain ⟨m2, hm2, hid2⟩ := List.mem_map.mp hb
      have := le_maxId cfg.members m1 hm1
      have := ha2 m2 hm2
      omega
    · rw [hcfg']

/-! ### Claim C6 — id discipline of submitted reconfigurations -/

/-- Claim C6: in every cycle that submits a reconfiguration built from a
non-empty fetched config with distinct member ids, each submitted member is
either a member of the fetched config carried over unchanged (same `_id`,
same host) or a newly appended member whose `_id` exceeds every id present
in the fetched config (so no previously used id is reused); all ids in the
submitted config are distinct; and the submitted version is the fetched
version plus one. -/
theorem C6_reconfig_id_discipline (env : ReconcileEnv) (cfg cfg' : RSConfig)
    (hcfg : effectiveConfig env = some cfg)
    (hne : cfg.members ≠ [])
    (hnd : (cfg.members.map RSMember.id).Nodup)
    (hsub : (runReconcile env).2 = some cfg') :
    (∀ m ∈ cfg'.members, m ∈ cfg.members ∨ maxId cfg.members < m.id) ∧
    (cfg'.members.map RSMember.id).Nodup ∧
    cfg'.version = cfg.version + 1 := by
  obtain ⟨cfg2, hc2, hb⟩ := runReconcile_outcome env cfg' hsub
  rw [hcfg] at hc2
  cases Option.some.inj hc2
  exact buildAndSubmit_spec env cfg cfg' hnd hb

/-- Claim C6 witness: the cycle `envC6` appends one member to the
one-member config `cfgC6` and submits; the submitted config keeps member 0
unchanged, assigns `_id = 1` to the new member, and bumps the version from
5 to 6. -/
theorem C6_reconfig_id_discipline_witness :
    ((runReconcile envC6).2 =
      some ⟨[⟨0, "mongo-10-0-0-1.mongo-cluster:27017"⟩,
             ⟨1, "mongo-10-0-0-2.mongo-cluster:27017"⟩], 6⟩) ∧
    ((∀ m ∈ (⟨[⟨0, "mongo-10-0-0-1.mongo-cluster:27017"⟩,
               ⟨1, "mongo-10-0-0-2.mongo-cluster:27017"⟩], 6⟩ : RSConfig).members,
        m ∈ cfgC6.members ∨ maxId cfgC6.members < m.id) ∧
     (((⟨[⟨0, "mongo-10-0-0-1.mongo-cluster:27017"⟩,
          ⟨1, "mongo-10-0-0-2.mongo-cluster:27017"⟩], 6⟩ : RSConfig).members.map
         RSMember.id).Nodup) ∧
     (⟨[⟨0, "mongo-10-0-0-1.mongo-cluster:27017"⟩,
        ⟨1, "mongo-10-0-0-2.mongo-cluster:27017"⟩], 6⟩ : RSConfig).version =
       cfgC6.version + 1) :=
  ⟨by decide,
   C6_reconfig_id_discipline envC6 cfgC6
     ⟨[⟨0, "mongo-10-0-0-1.mongo-cluster:27017"⟩,
       ⟨1, "mongo-10-0-0-2.mongo-cluster:27017"⟩], 6⟩
     rfl (by decide) (by decide) (by decide)⟩
